import Mathlib

/-!
# Verification of the ndn-cxx security core

Shallow embedding of three source files of the ndn-cxx security core:
certificate.cpp (certificate codec and validity checks),
sec-public-info-memory.cpp (in-memory public-info store), and
validator-null.hpp (always-accept policy), together with proofs of the
specified properties.

Bytes are modelled as natural numbers; binary records are lists of bytes.
The DER/BER sequence framing used by the codec (tag byte, definite length,
content) is modelled concretely so that encode and decode are executable.
-/

/-! ## DER/BER framing primitives -/

/-- Big-endian base-256 byte digits with explicit fuel, so that evaluation
proceeds by structural recursion. -/
def natToBytesBEAux (fuel n : Nat) : List Nat :=
  match fuel, n with
  | _, 0 => []
  | 0, _ + 1 => []
  | fuel + 1, n + 1 => natToBytesBEAux fuel ((n + 1) / 256) ++ [(n + 1) % 256]

/-- Big-endian base-256 byte representation of a natural number
(empty for zero), as used by the long form of a DER length marker. -/
def natToBytesBE (n : Nat) : List Nat := natToBytesBEAux n n

/-- Big-endian base-256 value of a byte list. -/
def bytesToNatBE (bs : List Nat) : Nat :=
  bs.foldl (fun acc b => acc * 256 + b) 0

/-- DER definite-length marker: short form below 128, long form otherwise. -/
def derLen (n : Nat) : List Nat :=
  if n < 128 then [n] else (128 + (natToBytesBE n).length) :: natToBytesBE n

/-- Parse a DER definite-length marker, returning the length and the rest. -/
def parseLen : List Nat → Option (Nat × List Nat)
  | [] => none
  | b :: rest =>
    if b < 128 then some (b, rest)
    else
      let k := b - 128
      if k = 0 then none
      else if k ≤ rest.length then some (bytesToNatBE (rest.take k), rest.drop k)
      else none

/-- Tag-length-value record: a tag byte, the DER length of the content,
then the content. -/
def tlv (tag : Nat) (content : List Nat) : List Nat :=
  tag :: (derLen content.length ++ content)

/-- Parse one TLV record with the expected tag, returning content and rest. -/
def parseTLV (tag : Nat) : List Nat → Option (List Nat × List Nat)
  | [] => none
  | t :: rest =>
    if t = tag then
      match parseLen rest with
      | none => none
      | some (len, rest2) =>
        if len ≤ rest2.length then some (rest2.take len, rest2.drop len) else none
    else none

theorem bytesToNatBE_natToBytesBEAux (fuel : Nat) :
    ∀ n, n ≤ fuel → bytesToNatBE (natToBytesBEAux fuel n) = n := by
  induction fuel with
  | zero =>
    intro n hn
    have h0 : n = 0 := Nat.le_zero.mp hn
    subst h0
    simp [natToBytesBEAux, bytesToNatBE]
  | succ fuel ih =>
    intro n hn
    match n with
    | 0 => simp [natToBytesBEAux, bytesToNatBE]
    | m + 1 =>
      have hdiv : (m + 1) / 256 ≤ fuel := by
        have := Nat.div_lt_self (Nat.succ_pos m) (by decide : 1 < 256)
        omega
      simp only [natToBytesBEAux]
      have hih := ih ((m + 1) / 256) hdiv
      simp only [bytesToNatBE] at hih ⊢
      rw [List.foldl_append, hih]
      simp only [List.foldl_cons, List.foldl_nil]
      omega

theorem bytesToNatBE_natToBytesBE (n : Nat) : bytesToNatBE (natToBytesBE n) = n :=
  bytesToNatBE_natToBytesBEAux n n (Nat.le_refl n)

theorem natToBytesBE_ne_nil {n : Nat} (h : n ≠ 0) : natToBytesBE n ≠ [] := by
  match n, h with
  | m + 1, _ => simp [natToBytesBE, natToBytesBEAux]

theorem parseLen_derLen (n : Nat) (rest : List Nat) :
    parseLen (derLen n ++ rest) = some (n, rest) := by
  by_cases h : n < 128
  · simp [derLen, h, parseLen]
  · have hn : n ≠ 0 := by omega
    have hne := natToBytesBE_ne_nil hn
    have hpos : 0 < (natToBytesBE n).length := List.length_pos.mpr hne
    simp only [derLen, if_neg h, List.cons_append, parseLen]
    rw [if_neg (by omega), if_neg (by omega)]
    have hk : 128 + (natToBytesBE n).length - 128 = (natToBytesBE n).length := by omega
    rw [hk, if_pos (by simp)]
    rw [List.take_left, List.drop_left, bytesToNatBE_natToBytesBE]

theorem parseTLV_tlv (tag : Nat) (c rest : List Nat) :
    parseTLV tag (tlv tag c ++ rest) = some (c, rest) := by
  simp only [tlv, List.cons_append, List.append_assoc, parseTLV, if_pos rfl]
  rw [parseLen_derLen]
  simp [List.take_left, List.drop_left]

theorem parseTLV_tlv_nil (tag : Nat) (c : List Nat) :
    parseTLV tag (tlv tag c) = some (c, []) := by
  have := parseTLV_tlv tag c []
  rwa [List.append_nil] at this

theorem tlv_ne_nil (tag : Nat) (c : List Nat) : tlv tag c ≠ [] := by
  simp [tlv]

/-! ## Generalized-time codec

Modelled from the spec: the timestamp codec (DEREncodeGeneralTime and
BERDecodeTime of the asn extension module) is not among the sampled sources;
per the spec the two validity timestamps are encoded in a canonical
generalized-time text form inside a length-delimited record. A time point is
modelled as a natural number rendered as decimal digit characters. -/

/-- Decimal digits with explicit fuel, so that evaluation proceeds by
structural recursion. -/
def natDigits10Aux (fuel n : Nat) : List Nat :=
  match fuel with
  | 0 => [n]
  | fuel + 1 => if n < 10 then [n] else natDigits10Aux fuel (n / 10) ++ [n % 10]

/-- Decimal digits of a natural number, most significant first. -/
def natDigits10 (n : Nat) : List Nat := natDigits10Aux n n

/-- Value of a most-significant-first decimal digit list. -/
def decDigitsVal (bs : List Nat) : Nat :=
  bs.foldl (fun acc d => acc * 10 + d) 0

/-- The tag byte of a generalized-time record. -/
def generalizedTimeTag : Nat := 24

/-- Encode a time point as a generalized-time TLV record of digit characters. -/
def encodeTime (t : Nat) : List Nat :=
  tlv generalizedTimeTag ((natDigits10 t).map (fun d => d + 48))

/-- Parse a nonempty string of decimal digit characters into a number. -/
def parseDigits (bs : List Nat) : Option Nat :=
  if bs = [] then none
  else if bs.all (fun b => 48 ≤ b && b ≤ 57) then
    some (decDigitsVal (bs.map (fun b => b - 48)))
  else none

/-- Parse a generalized-time TLV record, returning the time and the rest. -/
def parseTime (input : List Nat) : Option (Nat × List Nat) :=
  match parseTLV generalizedTimeTag input with
  | none => none
  | some (content, rest) =>
    match parseDigits content with
    | none => none
    | some t => some (t, rest)

theorem decDigitsVal_natDigits10Aux (fuel : Nat) :
    ∀ n, n ≤ fuel → decDigitsVal (natDigits10Aux fuel n) = n := by
  induction fuel with
  | zero =>
    intro n hn
    have h0 : n = 0 := Nat.le_zero.mp hn
    subst h0
    simp [natDigits10Aux, decDigitsVal]
  | succ fuel ih =>
    intro n hn
    by_cases h : n < 10
    · simp [natDigits10Aux, h, decDigitsVal]
    · have hdiv : n / 10 ≤ fuel := by
        have := Nat.div_lt_self (by omega : 0 < n) (by decide : 1 < 10)
        omega
      simp only [natDigits10Aux, if_neg h]
      have hih := ih (n / 10) hdiv
      simp only [decDigitsVal] at hih ⊢
      rw [List.foldl_append, hih]
      simp only [List.foldl_cons, List.foldl_nil]
      omega

theorem decDigitsVal_natDigits10 (n : Nat) : decDigitsVal (natDigits10 n) = n :=
  decDigitsVal_natDigits10Aux n n (Nat.le_refl n)

theorem natDigits10_ne_nil (n : Nat) : natDigits10 n ≠ [] := by
  rw [natDigits10]
  match n with
  | 0 => simp [natDigits10Aux]
  | m + 1 =>
    simp only [natDigits10Aux]
    by_cases h : m + 1 < 10 <;> simp [h]

theorem natDigits10Aux_lt (fuel : Nat) :
    ∀ n, n ≤ fuel → ∀ d ∈ natDigits10Aux fuel n, d < 10 := by
  induction fuel with
  | zero =>
    intro n hn d hd
    have h0 : n = 0 := Nat.le_zero.mp hn
    subst h0
    simp [natDigits10Aux] at hd
    omega
  | succ fuel ih =>
    intro n hn d hd
    by_cases h : n < 10
    · simp [natDigits10Aux, h] at hd
      omega
    · have hdiv : n / 10 ≤ fuel := by
        have := Nat.div_lt_self (by omega : 0 < n) (by decide : 1 < 10)
        omega
      simp only [natDigits10Aux, if_neg h] at hd
      rcases List.mem_append.mp hd with hd1 | hd2
      · exact ih (n / 10) hdiv d hd1
      · simp only [List.mem_singleton] at hd2
        subst hd2
        exact Nat.mod_lt _ (by decide)

theorem natDigits10_lt (n : Nat) : ∀ d ∈ natDigits10 n, d < 10 :=
  natDigits10Aux_lt n n (Nat.le_refl n)

theorem parseDigits_encodeDigits (n : Nat) :
    parseDigits ((natDigits10 n).map (fun d => d + 48)) = some n := by
  have hne : (natDigits10 n).map (fun d => d + 48) ≠ [] := by
    simpa using natDigits10_ne_nil n
  have hall : ((natDigits10 n).map (fun d => d + 48)).all (fun b => 48 ≤ b && b ≤ 57) = true := by
    rw [List.all_eq_true]
    intro b hb
    rcases List.mem_map.mp hb with ⟨d, hd, rfl⟩
    have := natDigits10_lt n d hd
    simp
    omega
  rw [parseDigits, if_neg hne, if_pos hall]
  rw [List.map_map]
  have hmap : ((fun b => b - 48) ∘ fun d => d + 48) = (id : Nat → Nat) := by
    funext d
    simp
  rw [hmap, List.map_id, decDigitsVal_natDigits10]

theorem parseTime_encodeTime (t : Nat) (rest : List Nat) :
    parseTime (encodeTime t ++ rest) = some (t, rest) := by
  simp only [parseTime, encodeTime, parseTLV_tlv, parseDigits_encodeDigits]

theorem parseTime_encodeTime_nil (t : Nat) :
    parseTime (encodeTime t) = some (t, []) := by
  have := parseTime_encodeTime t []
  rwa [List.append_nil] at this

/-! ## Certificate data model and leaf codecs

The certificate structure follows certificate.cpp: a validity interval,
an ordered subject description list, public key info and an ordered
extension list. The leaf codecs (CertificateSubjectDescription,
PublicKey, CertificateExtension) are modelled from the spec: their
implementations are not among the sampled sources; per the spec each is a
self-delimiting nested record in the fixed grammar of section 4.1. -/

/-- The tag byte of a SEQUENCE record. -/
def sequenceTag : Nat := 48

/-- Modelled from the spec: a subject description is an
(attribute-oid, string-value) pair. -/
structure CertificateSubjectDescription where
  oid : List Nat
  value : List Nat
deriving DecidableEq

/-- Modelled from the spec: public key info is an algorithm identifier
plus opaque key bits. -/
structure PublicKey where
  algorithm : List Nat
  keyBits : List Nat
deriving DecidableEq

/-- Modelled from the spec: an extension is an
(extension-oid, critical-flag, opaque-value) triple. -/
structure CertificateExtension where
  oid : List Nat
  critical : Bool
  value : List Nat
deriving DecidableEq

/-- Certificate fields of certificate.cpp: validity interval, subject
description list, key info, extension list. -/
structure Certificate where
  notBefore : Nat
  notAfter : Nat
  subjectDescriptionList : List CertificateSubjectDescription
  key : PublicKey
  extensionList : List CertificateExtension
deriving DecidableEq

/-- Modelled from the spec: a subject description encodes as a sequence
holding its oid record and its value record. -/
def CertificateSubjectDescription.encode (d : CertificateSubjectDescription) : List Nat :=
  tlv sequenceTag (tlv 6 d.oid ++ tlv 12 d.value)

/-- Modelled from the spec: parse one self-delimiting subject description. -/
def parseSubjectDescription (input : List Nat) :
    Option (CertificateSubjectDescription × List Nat) :=
  match parseTLV sequenceTag input with
  | none => none
  | some (body, rest) =>
    match parseTLV 6 body with
    | none => none
    | some (oid, b2) =>
      match parseTLV 12 b2 with
      | none => none
      | some (v, b3) => if b3 = [] then some (⟨oid, v⟩, rest) else none

/-- Modelled from the spec: SubjectPublicKeyInfo is a sequence holding the
algorithm identifier record and the key-bits record. -/
def PublicKey.encode (k : PublicKey) : List Nat :=
  tlv sequenceTag (tlv 6 k.algorithm ++ tlv 3 k.keyBits)

/-- Modelled from the spec: parse one SubjectPublicKeyInfo record. -/
def PublicKey.decode (input : List Nat) : Option (PublicKey × List Nat) :=
  match parseTLV sequenceTag input with
  | none => none
  | some (body, rest) =>
    match parseTLV 6 body with
    | none => none
    | some (alg, b2) =>
      match parseTLV 3 b2 with
      | none => none
      | some (bits, b3) => if b3 = [] then some (⟨alg, bits⟩, rest) else none

/-- Modelled from the spec: an extension encodes as a sequence holding its
oid record, its critical-flag boolean record and its value record. -/
def CertificateExtension.encode (e : CertificateExtension) : List Nat :=
  tlv sequenceTag (tlv 6 e.oid ++ tlv 1 [if e.critical then 255 else 0] ++ tlv 4 e.value)

/-- Modelled from the spec: parse one self-delimiting extension entry. -/
def parseExtension (input : List Nat) : Option (CertificateExtension × List Nat) :=
  match parseTLV sequenceTag input with
  | none => none
  | some (body, rest) =>
    match parseTLV 6 body with
    | none => none
    | some (oid, b2) =>
      match parseTLV 1 b2 with
      | none => none
      | some (critBytes, b3) =>
        match critBytes with
        | [b] =>
          match parseTLV 4 b3 with
          | none => none
          | some (v, b4) => if b4 = [] then some (⟨oid, b ≠ 0, v⟩, rest) else none
        | _ => none

theorem parseSubjectDescription_encode (d : CertificateSubjectDescription)
    (rest : List Nat) :
    parseSubjectDescription (d.encode ++ rest) = some (d, rest) := by
  obtain ⟨oid, v⟩ := d
  simp [parseSubjectDescription, CertificateSubjectDescription.encode,
    parseTLV_tlv, parseTLV_tlv_nil]

theorem PublicKey.decode_encode (k : PublicKey) (rest : List Nat) :
    PublicKey.decode (k.encode ++ rest) = some (k, rest) := by
  obtain ⟨alg, bits⟩ := k
  simp [PublicKey.decode, PublicKey.encode, parseTLV_tlv, parseTLV_tlv_nil]

theorem PublicKey.decode_encode_nil (k : PublicKey) :
    PublicKey.decode k.encode = some (k, []) := by
  have := PublicKey.decode_encode k []
  rwa [List.append_nil] at this

theorem parseExtension_encode (e : CertificateExtension) (rest : List Nat) :
    parseExtension (e.encode ++ rest) = some (e, rest) := by
  obtain ⟨oid, crit, v⟩ := e
  cases crit with
  | false =>
    simp only [parseExtension, CertificateExtension.encode, List.append_assoc,
      parseTLV_tlv, parseTLV_tlv_nil]
    simp
  | true =>
    simp only [parseExtension, CertificateExtension.encode, List.append_assoc,
      parseTLV_tlv, parseTLV_tlv_nil]
    simp

/-! ## Repeated-entry loops

The decoder in certificate.cpp reads subject descriptions (and extensions)
in a loop, pushing each decoded entry onto the member list until the
enclosing sequence is exhausted; a failure mid-loop aborts with the entries
pushed so far retained. The error value of the loop carries that
partially built list. Fuel bounds the loop; one byte is consumed per
iteration so the byte count of the input is always enough fuel. -/

/-- Read subject descriptions until the input is exhausted, accumulating
them in order; on a parse failure return the entries read so far. -/
def parseSubjectDescriptionLoop (fuel : Nat) (input : List Nat)
    (acc : List CertificateSubjectDescription) :
    Except (List CertificateSubjectDescription) (List CertificateSubjectDescription) :=
  match fuel with
  | 0 => if input = [] then .ok acc else .error acc
  | fuel + 1 =>
    if input = [] then .ok acc
    else
      match parseSubjectDescription input with
      | none => .error acc
      | some (d, rest) => parseSubjectDescriptionLoop fuel rest (acc ++ [d])

/-- Read extensions until the input is exhausted, accumulating them in
order; on a parse failure return the entries read so far. -/
def parseExtensionLoop (fuel : Nat) (input : List Nat)
    (acc : List CertificateExtension) :
    Except (List CertificateExtension) (List CertificateExtension) :=
  match fuel with
  | 0 => if input = [] then .ok acc else .error acc
  | fuel + 1 =>
    if input = [] then .ok acc
    else
      match parseExtension input with
      | none => .error acc
      | some (e, rest) => parseExtensionLoop fuel rest (acc ++ [e])

theorem length_le_flatMap_subject (ds : List CertificateSubjectDescription) :
    ds.length ≤ (ds.flatMap CertificateSubjectDescription.encode).length := by
  induction ds with
  | nil => simp
  | cons d tl ih =>
    simp only [List.flatMap_cons, List.length_append, List.length_cons]
    have : 1 ≤ d.encode.length := by
      simp [CertificateSubjectDescription.encode, tlv]
    omega

theorem length_le_flatMap_extension (es : List CertificateExtension) :
    es.length ≤ (es.flatMap CertificateExtension.encode).length := by
  induction es with
  | nil => simp
  | cons e tl ih =>
    simp only [List.flatMap_cons, List.length_append, List.length_cons]
    have : 1 ≤ e.encode.length := by
      simp [CertificateExtension.encode, tlv]
    omega

theorem parseSubjectDescriptionLoop_encode (ds : List CertificateSubjectDescription) :
    ∀ (fuel : Nat) (acc : List CertificateSubjectDescription), ds.length ≤ fuel →
      parseSubjectDescriptionLoop fuel (ds.flatMap CertificateSubjectDescription.encode) acc =
        .ok (acc ++ ds) := by
  induction ds with
  | nil =>
    intro fuel acc hf
    cases fuel <;> simp [parseSubjectDescriptionLoop]
  | cons d tl ih =>
    intro fuel acc hf
    match fuel with
    | 0 => simp at hf
    | f + 1 =>
      have hne : d.encode ++ tl.flatMap CertificateSubjectDescription.encode ≠ [] := by
        simp [CertificateSubjectDescription.encode, tlv]
      simp only [List.flatMap_cons, parseSubjectDescriptionLoop, if_neg hne,
        parseSubjectDescription_encode]
      rw [ih f (acc ++ [d]) (by simpa using Nat.lt_succ_iff.mp (Nat.lt_of_lt_of_le (Nat.lt_succ_of_le (Nat.le_refl _)) hf))]
      simp

theorem parseExtensionLoop_encode (es : List CertificateExtension) :
    ∀ (fuel : Nat) (acc : List CertificateExtension), es.length ≤ fuel →
      parseExtensionLoop fuel (es.flatMap CertificateExtension.encode) acc =
        .ok (acc ++ es) := by
  induction es with
  | nil =>
    intro fuel acc hf
    cases fuel <;> simp [parseExtensionLoop]
  | cons e tl ih =>
    intro fuel acc hf
    match fuel with
    | 0 => simp at hf
    | f + 1 =>
      have hne : e.encode ++ tl.flatMap CertificateExtension.encode ≠ [] := by
        simp [CertificateExtension.encode, tlv]
      simp only [List.flatMap_cons, parseExtensionLoop, if_neg hne, parseExtension_encode]
      rw [ih f (acc ++ [e]) (by simp at hf; omega)]
      simp

/-! ## Certificate encode and decode

Certificate.encode follows certificate.cpp lines 56-157: one outer sequence
holding the validity sequence (two generalized times), the subject name
sequence, the key info, and, only when the extension list is nonempty, the
extensions sequence.

Certificate.decode follows certificate.cpp lines 159-224. The C++ routine
mutates the member fields of the certificate object as it parses and
propagates a decoding exception on malformed input; the model therefore
takes the pre-call certificate and returns either the fully decoded
certificate or, on failure, the certificate as the aborted call leaves it,
with every field assigned before the failure point already overwritten. -/

/-- Encode a certificate into its binary content, as Certificate encode
builds the DER content octets. -/
def Certificate.encode (c : Certificate) : List Nat :=
  tlv sequenceTag
    (tlv sequenceTag (encodeTime c.notBefore ++ encodeTime c.notAfter) ++
      (tlv sequenceTag (c.subjectDescriptionList.flatMap CertificateSubjectDescription.encode) ++
        (PublicKey.encode c.key ++
          (if c.extensionList.isEmpty then []
           else tlv sequenceTag (c.extensionList.flatMap CertificateExtension.encode)))))

/-- Decode certificate content octets into the certificate object, as
Certificate decode does: on failure the error value is the object with the
fields mutated before the failure point. -/
def Certificate.decode (input : List Nat) (c : Certificate) :
    Except Certificate Certificate :=
  match parseTLV sequenceTag input with
  | none => .error c
  | some (body, _) =>
    match parseTLV sequenceTag body with
    | none => .error c
    | some (vbody, afterValidity) =>
      match parseTime vbody with
      | none => .error c
      | some (t0, v1) =>
        let c1 : Certificate := { c with notBefore := t0 }
        match parseTime v1 with
        | none => .error c1
        | some (t1, v2) =>
          let c2 : Certificate := { c1 with notAfter := t1 }
          if v2 ≠ [] then .error c2
          else
            let c3 : Certificate := { c2 with subjectDescriptionList := [] }
            match parseTLV sequenceTag afterValidity with
            | none => .error c3
            | some (nbody, afterName) =>
              match parseSubjectDescriptionLoop nbody.length nbody [] with
              | .error ds => .error { c3 with subjectDescriptionList := ds }
              | .ok ds =>
                let c4 : Certificate := { c3 with subjectDescriptionList := ds }
                match PublicKey.decode afterName with
                | none => .error c4
                | some (k, afterKey) =>
                  let c5 : Certificate := { c4 with key := k }
                  let c6 : Certificate := { c5 with extensionList := [] }
                  if afterKey = [] then .ok c6
                  else
                    match parseTLV sequenceTag afterKey with
                    | none => .error c6
                    | some (ebody, afterExt) =>
                      match parseExtensionLoop ebody.length ebody [] with
                      | .error es => .error { c6 with extensionList := es }
                      | .ok es =>
                        let c7 : Certificate := { c6 with extensionList := es }
                        if afterExt = [] then .ok c7 else .error c7

theorem certificate_codec_roundtrip_core (c c0 : Certificate) :
    Certificate.decode (Certificate.encode c) c0 = .ok c := by
  obtain ⟨t0, t1, subj, key, ext⟩ := c
  have hsub := parseSubjectDescriptionLoop_encode subj
    (subj.flatMap CertificateSubjectDescription.encode).length []
    (length_le_flatMap_subject subj)
  cases ext with
  | nil =>
    simp only [Certificate.encode, Certificate.decode, List.isEmpty_nil, if_true,
      List.append_nil, parseTLV_tlv, parseTLV_tlv_nil, parseTime_encodeTime,
      parseTime_encodeTime_nil, hsub, PublicKey.decode_encode_nil]
    simp
  | cons e es =>
    have hext := parseExtensionLoop_encode (e :: es)
      (((e :: es).flatMap CertificateExtension.encode)).length []
      (length_le_flatMap_extension (e :: es))
    simp only [List.flatMap_cons, List.nil_append] at hext
    simp only [Certificate.encode, Certificate.decode, List.isEmpty_cons, if_false,
      parseTLV_tlv, parseTLV_tlv_nil, parseTime_encodeTime, parseTime_encodeTime_nil,
      hsub, PublicKey.decode_encode]
    simp only [List.length_append, List.length_flatMap] at hext
    simp [parseTLV_tlv_nil, hext, tlv_ne_nil]

/-! ## Validity-window checks

Certificate isTooEarly and isTooLate of certificate.cpp compare the clock
against the validity bounds; the clock (an external collaborator per the
spec) is passed explicitly as the current instant. -/

/-- True when the current instant is strictly before notBefore. -/
def Certificate.isTooEarly (c : Certificate) (now : Nat) : Bool :=
  decide (now < c.notBefore)

/-- True when the current instant is strictly after notAfter. -/
def Certificate.isTooLate (c : Certificate) (now : Nat) : Bool :=
  decide (c.notAfter < now)

/-- Modelled from the spec: a certificate is currently valid iff it is
neither too early nor too late. -/
def Certificate.isValidAt (c : Certificate) (now : Nat) : Bool :=
  !c.isTooEarly now && !c.isTooLate now

/-! ## The in-memory public-info store

Model of sec-public-info-memory.cpp. A name is its list of components;
the uri conversion used by the C++ store to key its containers is the
identity on this representation (distinct well-formed names have distinct
uris). The two keyed containers are association lists with
overwrite-on-insert, matching map subscript assignment; the identity
container is an insertion-ordered list without duplicates. -/

/-- A hierarchical name, as its list of components. -/
abbrev Name := List String

/-- Key type tag of a stored key record. -/
inductive KeyType where
  | rsa
  | ecdsa
deriving DecidableEq

/-- Modelled from the spec: an identity certificate carries its own name,
the name of the key it certifies and that key's public key info. -/
structure IdentityCertificate where
  name : Name
  publicKeyName : Name
  publicKeyInfo : PublicKey
deriving DecidableEq

/-- Look up a name in an association list. -/
def findName {α : Type} (k : Name) : List (Name × α) → Option α
  | [] => none
  | (k2, v) :: rest => if k2 = k then some v else findName k rest

/-- Insert or overwrite a binding in an association list. -/
def upsertName {α : Type} (k : Name) (v : α) : List (Name × α) → List (Name × α)
  | [] => [(k, v)]
  | (k2, v2) :: rest =>
    if k2 = k then (k, v) :: rest else (k2, v2) :: upsertName k v rest

/-- State of SecPublicInfoMemory: identity list, key store, certificate
store and the three stored defaults. An empty name models a cleared
default string. -/
structure SecPublicInfoMemory where
  identityStore : List Name
  keyStore : List (Name × KeyType × PublicKey)
  certificateStore : List (Name × IdentityCertificate)
  defaultIdentity : Name
  defaultKeyName : Name
  defaultCert : Name
deriving DecidableEq

/-- A freshly constructed store with nothing in it. -/
def SecPublicInfoMemory.emptyStore : SecPublicInfoMemory :=
  ⟨[], [], [], [], [], []⟩

/-- Whether an identity is present. -/
def SecPublicInfoMemory.doesIdentityExist (s : SecPublicInfoMemory) (identityName : Name) :
    Bool :=
  decide (identityName ∈ s.identityStore)

/-- Add an identity; a no-op when it is already present. -/
def SecPublicInfoMemory.addIdentity (s : SecPublicInfoMemory) (identityName : Name) :
    SecPublicInfoMemory :=
  if identityName ∈ s.identityStore then s
  else { s with identityStore := s.identityStore ++ [identityName] }

/-- Whether a key record is present. -/
def SecPublicInfoMemory.doesPublicKeyExist (s : SecPublicInfoMemory) (keyName : Name) :
    Bool :=
  (findName keyName s.keyStore).isSome

/-- Add a key record, implicitly adding the owning identity (the key name
without its final component), and overwriting any record for the name. -/
def SecPublicInfoMemory.addPublicKey (s : SecPublicInfoMemory) (keyName : Name)
    (keyType : KeyType) (publicKey : PublicKey) : SecPublicInfoMemory :=
  let s1 := s.addIdentity keyName.dropLast
  { s1 with keyStore := upsertName keyName (keyType, publicKey) s1.keyStore }

/-- Look up the public key stored for a key name; none models the thrown
not-found Error. -/
def SecPublicInfoMemory.getPublicKey (s : SecPublicInfoMemory) (keyName : Name) :
    Option PublicKey :=
  (findName keyName s.keyStore).map (fun r => r.2)

/-- Whether a certificate is present. -/
def SecPublicInfoMemory.doesCertificateExist (s : SecPublicInfoMemory)
    (certificateName : Name) : Bool :=
  (findName certificateName s.certificateStore).isSome

/-- Add a certificate, implicitly adding the owning identity and the
certified key first, then overwriting any record for the certificate name. -/
def SecPublicInfoMemory.addCertificate (s : SecPublicInfoMemory)
    (certificate : IdentityCertificate) : SecPublicInfoMemory :=
  let s1 := s.addIdentity certificate.publicKeyName.dropLast
  let s2 := s1.addPublicKey certificate.publicKeyName KeyType.rsa certificate.publicKeyInfo
  { s2 with
    certificateStore := upsertName certificate.name certificate s2.certificateStore }

/-- Look up a stored certificate; none models the thrown not-found Error. -/
def SecPublicInfoMemory.getCertificate (s : SecPublicInfoMemory)
    (certificateName : Name) : Option IdentityCertificate :=
  findName certificateName s.certificateStore

/-- The stored default identity, as a name. -/
def SecPublicInfoMemory.getDefaultIdentity (s : SecPublicInfoMemory) : Name :=
  s.defaultIdentity

/-- Set the default identity when it exists; clear it otherwise. -/
def SecPublicInfoMemory.setDefaultIdentityInternal (s : SecPublicInfoMemory)
    (identityName : Name) : SecPublicInfoMemory :=
  if identityName ∈ s.identityStore then { s with defaultIdentity := identityName }
  else { s with defaultIdentity := [] }

/-- The stored default key name; the identity argument is not consulted. -/
def SecPublicInfoMemory.getDefaultKeyNameForIdentity (s : SecPublicInfoMemory)
    (identityName : Name) : Name :=
  s.defaultKeyName

/-- Store the default key name unconditionally. -/
def SecPublicInfoMemory.setDefaultKeyNameForIdentityInternal (s : SecPublicInfoMemory)
    (keyName : Name) : SecPublicInfoMemory :=
  { s with defaultKeyName := keyName }

/-- The stored default certificate name; the key argument is not consulted. -/
def SecPublicInfoMemory.getDefaultCertificateNameForKey (s : SecPublicInfoMemory)
    (keyName : Name) : Name :=
  s.defaultCert

/-- Store the default certificate name unconditionally. -/
def SecPublicInfoMemory.setDefaultCertificateNameForKeyInternal (s : SecPublicInfoMemory)
    (certificateName : Name) : SecPublicInfoMemory :=
  { s with defaultCert := certificateName }

/-! ## The always-accept validator

Model of ValidatorNull checkPolicy of validator-null.hpp. A policy run is
recorded as the list of items each continuation was invoked with plus the
validation requests appended to nextSteps, so that how often each
continuation fired is part of the result. -/

/-- A data packet, identified by its wire bytes. -/
structure Data where
  wire : List Nat
deriving DecidableEq

/-- An interest packet, identified by its wire bytes. -/
structure Interest where
  wire : List Nat
deriving DecidableEq

/-- Modelled from the spec: one pending chain-validation step with its
remaining step budget. -/
structure ValidationRequest where
  interest : Interest
  remainingSteps : Nat
deriving DecidableEq

/-- Trace of one checkPolicy call: the arguments of every invocation of the
success continuation, of the failure continuation, and every request
appended to nextSteps. -/
structure PolicyTrace (α : Type) where
  validatedCalls : List α
  failedCalls : List α
  nextStepsAdded : List ValidationRequest
deriving DecidableEq

/-- ValidatorNull checkPolicy on a data packet: it only invokes the
success continuation with the packet. -/
def ValidatorNull.checkPolicyData (data : Data) (nSteps : Int) : PolicyTrace Data :=
  { validatedCalls := [data], failedCalls := [], nextStepsAdded := [] }

/-- ValidatorNull checkPolicy on an interest packet: it only invokes the
success continuation with the packet. -/
def ValidatorNull.checkPolicyInterest (interest : Interest) (nSteps : Int) :
    PolicyTrace Interest :=
  { validatedCalls := [interest], failedCalls := [], nextStepsAdded := [] }

/-- Equality of decode results is decidable. -/
instance {e a : Type} [DecidableEq e] [DecidableEq a] : DecidableEq (Except e a) :=
  fun x y =>
    match x, y with
    | .ok v, .ok w =>
      if h : v = w then isTrue (by rw [h]) else isFalse (fun hc => h (Except.ok.inj hc))
    | .error v, .error w =>
      if h : v = w then isTrue (by rw [h]) else isFalse (fun hc => h (Except.error.inj hc))
    | .ok _, .error _ => isFalse (fun hc => Except.noConfusion hc)
    | .error _, .ok _ => isFalse (fun hc => Except.noConfusion hc)

/-! ## Sample values used by witnesses and counterexamples -/

/-- A concrete schema-conforming certificate. -/
def certSample : Certificate :=
  ⟨3, 9, [⟨[85], [65, 66]⟩], ⟨[42], [1, 2]⟩, [⟨[9], true, [7]⟩]⟩

/-- A concrete pre-call certificate object for decode. -/
def certSeed : Certificate := ⟨0, 0, [], ⟨[], []⟩, []⟩

/-- An input holding only a well-formed validity record, truncated before
the subject record. -/
def truncatedInput : List Nat :=
  tlv sequenceTag (tlv sequenceTag (encodeTime 5 ++ encodeTime 7))

/-- A certificate whose validity interval is inverted. -/
def mkIntervalCert (t0 t1 : Nat) : Certificate :=
  ⟨t0, t1, [⟨[85], [65]⟩], ⟨[42], [1, 2]⟩, []⟩

/-- The identity name of the store scenario. -/
def aliceIdentity : Name := ["alice"]

/-- The key name of the store scenario. -/
def aliceKeyName : Name := ["alice", "KEY1"]

/-- The certificate name of the store scenario. -/
def aliceCertName : Name := ["alice", "KEY1", "ID-CERT", "1"]

/-- A key name not present in any store of the counterexamples. -/
def strayKeyName : Name := ["bob", "KEY9"]

/-! ## Claim theorems -/

/-- C1: for every certificate within the schema (non-empty subject list,
well-formed validity interval, key info present, extensions optional),
decoding the encoding reproduces the certificate field-for-field, whatever
the pre-call state of the decoding object. -/
theorem certificate_decode_encode_roundtrip (c c0 : Certificate)
    (hsubj : c.subjectDescriptionList ≠ [])
    (hvalid : c.notBefore ≤ c.notAfter) :
    Certificate.decode (Certificate.encode c) c0 = .ok c :=
  certificate_codec_roundtrip_core c c0

/-- Witness for C1 at a concrete certificate. -/
theorem certificate_decode_encode_roundtrip_witness :
    certSample.subjectDescriptionList ≠ [] ∧
      certSample.notBefore ≤ certSample.notAfter ∧
      Certificate.decode (Certificate.encode certSample) certSeed = .ok certSample :=
  ⟨by decide, by decide,
    certificate_decode_encode_roundtrip certSample certSeed (by decide) (by decide)⟩

/-- C2 counterexample: on an input whose validity record parses but which
is truncated before the subject record, decode fails yet the certificate
object is not left as it was: the decoded timestamps are retained. -/
theorem certificate_decode_not_all_or_nothing :
    Certificate.decode truncatedInput certSeed =
        .error (⟨5, 7, [], ⟨[], []⟩, []⟩ : Certificate) ∧
      (⟨5, 7, [], ⟨[], []⟩, []⟩ : Certificate) ≠ certSeed := by
  constructor
  · decide
  · decide

/-- C2 amended: a malformed or truncated input makes decode fail
(FormatError), but fields assigned before the failure point keep their
partially decoded values: after a well-formed validity record followed by
truncation, notBefore and notAfter hold the decoded timestamps and the
subject description list has been cleared. Decode is not all-or-nothing. -/
theorem certificate_decode_aborts_with_fields_retained (t0 t1 : Nat) (c : Certificate) :
    Certificate.decode (tlv sequenceTag (tlv sequenceTag (encodeTime t0 ++ encodeTime t1))) c =
      .error { c with notBefore := t0, notAfter := t1, subjectDescriptionList := [] } := by
  simp only [Certificate.decode, parseTLV_tlv_nil, parseTime_encodeTime,
    parseTime_encodeTime_nil]
  simp [parseTLV]

/-- C3 counterexample: an encoded record whose interval is inverted
(notBefore = 9 over notAfter = 3) decodes successfully; decode enforces no
interval ordering. -/
theorem certificate_decode_accepts_inverted_interval :
    Certificate.decode (Certificate.encode (mkIntervalCert 9 3)) certSeed =
        .ok (mkIntervalCert 9 3) ∧
      (mkIntervalCert 9 3).notAfter < (mkIntervalCert 9 3).notBefore := by
  exact ⟨certificate_codec_roundtrip_core _ _, by decide⟩

/-- C3 amended: on success the decoded structural nesting order is the
fixed one, but decode does not check the validity interval; for any
inverted interval the record still decodes successfully, reproducing the
inverted bounds. -/
theorem certificate_decode_no_interval_check (t0 t1 : Nat) (h : t1 < t0) :
    Certificate.decode (Certificate.encode (mkIntervalCert t0 t1)) certSeed =
      .ok (mkIntervalCert t0 t1) :=
  certificate_codec_roundtrip_core _ _

/-- Witness for the amended C3 at a concrete inverted interval. -/
theorem certificate_decode_no_interval_check_witness :
    (3 : Nat) < 9 ∧
      Certificate.decode (Certificate.encode (mkIntervalCert 9 3)) certSeed =
        .ok (mkIntervalCert 9 3) :=
  ⟨by decide, certificate_decode_no_interval_check 9 3 (by decide)⟩

/-- C4: from an empty store, adding the key and then the certificate makes
the certificate exist, makes getPublicKey return the key bytes, and makes
the identity exist although addIdentity was never called explicitly. -/
theorem store_add_certificate_scenario (K : PublicKey) :
    ((SecPublicInfoMemory.emptyStore.addPublicKey aliceKeyName KeyType.rsa K).addCertificate
          ⟨aliceCertName, aliceKeyName, K⟩).doesCertificateExist aliceCertName = true ∧
      ((SecPublicInfoMemory.emptyStore.addPublicKey aliceKeyName KeyType.rsa K).addCertificate
          ⟨aliceCertName, aliceKeyName, K⟩).getPublicKey aliceKeyName = some K ∧
      ((SecPublicInfoMemory.emptyStore.addPublicKey aliceKeyName KeyType.rsa K).addCertificate
          ⟨aliceCertName, aliceKeyName, K⟩).doesIdentityExist aliceIdentity = true := by
  refine ⟨?_, ?_, ?_⟩ <;>
    simp [SecPublicInfoMemory.emptyStore, SecPublicInfoMemory.addPublicKey,
      SecPublicInfoMemory.addCertificate, SecPublicInfoMemory.addIdentity,
      SecPublicInfoMemory.doesCertificateExist, SecPublicInfoMemory.getPublicKey,
      SecPublicInfoMemory.doesIdentityExist, findName, upsertName,
      aliceIdentity, aliceKeyName, aliceCertName]

/-- C5: setting the default identity and reading it back yields the set
name exactly when the identity existed at set time, and the empty name
otherwise. -/
theorem store_default_identity_set_get (s : SecPublicInfoMemory) (n : Name) :
    (s.setDefaultIdentityInternal n).getDefaultIdentity =
      (if s.doesIdentityExist n then n else ([] : Name)) := by
  simp only [SecPublicInfoMemory.setDefaultIdentityInternal,
    SecPublicInfoMemory.getDefaultIdentity, SecPublicInfoMemory.doesIdentityExist]
  by_cases h : n ∈ s.identityStore <;> simp [h]

/-- C6 counterexample: setting the default key name on an empty store is
neither rejected nor cleared: the stray name is stored and read back even
though no key record with that name exists. -/
theorem store_default_key_not_validated :
    ((SecPublicInfoMemory.emptyStore.setDefaultKeyNameForIdentityInternal
          strayKeyName).getDefaultKeyNameForIdentity aliceIdentity = strayKeyName) ∧
      (SecPublicInfoMemory.emptyStore.setDefaultKeyNameForIdentityInternal
          strayKeyName).doesPublicKeyExist strayKeyName = false := by
  decide

/-- C6 amended: the default-key-for-identity and default-certificate-for-key
mutators store the given name unconditionally, with no existence check and
no clearing; a stored default may name an entry that does not exist (only
the default-identity mutator validates and clears). -/
theorem store_default_key_cert_mutators_unconditional (s : SecPublicInfoMemory)
    (n m : Name) :
    (s.setDefaultKeyNameForIdentityInternal n).getDefaultKeyNameForIdentity m = n ∧
      (s.setDefaultCertificateNameForKeyInternal n).getDefaultCertificateNameForKey m = n :=
  ⟨rfl, rfl⟩

/-- C7: the always-accept policy invokes the success continuation exactly
once with the submitted item, never invokes the failure continuation and
appends nothing to nextSteps, for data and for interest items alike. -/
theorem validator_null_accepts_exactly_once (data : Data) (interest : Interest)
    (n1 n2 : Int) :
    ValidatorNull.checkPolicyData data n1 =
        ⟨[data], [], []⟩ ∧
      ValidatorNull.checkPolicyInterest interest n2 = ⟨[interest], [], []⟩ :=
  ⟨rfl, rfl⟩

/-- C8: with notBefore strictly below notAfter, isTooEarly holds exactly
strictly before notBefore, isTooLate exactly strictly after notAfter, and
the certificate is currently valid exactly when neither holds. -/
theorem certificate_validity_window (c : Certificate) (now : Nat)
    (h : c.notBefore < c.notAfter) :
    (c.isTooEarly now = true ↔ now < c.notBefore) ∧
      (c.isTooLate now = true ↔ c.notAfter < now) ∧
      (c.isValidAt now = true ↔ (c.notBefore ≤ now ∧ now ≤ c.notAfter)) := by
  refine ⟨?_, ?_, ?_⟩ <;>
    simp [Certificate.isTooEarly, Certificate.isTooLate, Certificate.isValidAt] <;>
    omega

/-- Witness for C8 at a concrete certificate and instant. -/
theorem certificate_validity_window_witness :
    certSample.notBefore < certSample.notAfter ∧
      ((certSample.isTooEarly 4 = true ↔ 4 < certSample.notBefore) ∧
        (certSample.isTooLate 4 = true ↔ certSample.notAfter < 4) ∧
        (certSample.isValidAt 4 = true ↔ (certSample.notBefore ≤ 4 ∧ 4 ≤ certSample.notAfter))) :=
  ⟨by decide, certificate_validity_window certSample 4 (by decide)⟩

/-- C9: a key lookup succeeds exactly when the key exists and a certificate
lookup succeeds exactly when the certificate exists; a miss yields the
not-found error value and, the getters being read-only, the store is
unchanged. -/
theorem store_lookup_iff_exists (s : SecPublicInfoMemory) (k c : Name) :
    ((s.getPublicKey k).isSome = s.doesPublicKeyExist k) ∧
      ((s.getCertificate c).isSome = s.doesCertificateExist c) := by
  constructor
  · simp [SecPublicInfoMemory.getPublicKey, SecPublicInfoMemory.doesPublicKeyExist]
  · simp [SecPublicInfoMemory.getCertificate, SecPublicInfoMemory.doesCertificateExist]

/-- C10: the per-identity default-key accessor and the per-key
default-certificate accessor ignore their name argument: any two argument
names read the same store-wide stored default. -/
theorem store_default_accessors_ignore_argument (s : SecPublicInfoMemory) (a b : Name) :
    s.getDefaultKeyNameForIdentity a = s.getDefaultKeyNameForIdentity b ∧
      s.getDefaultCertificateNameForKey a = s.getDefaultCertificateNameForKey b :=
  ⟨rfl, rfl⟩
